import Mathlib

/-!
# A shallow embedding of PyConcatenator (src/Script.py)

PyConcatenator is a small interactive CLI that discovers folders of image
fragments named `segment_*.png`, validates that all fragments share one pixel
size, and stitches them into a single PNG along a chosen axis.

This file embeds the core of `src/Script.py` in Lean:

* `find_segment_files` — the glob-and-sort discovery of fragment files
  (Script.py lines 36–40);
* `check_image_sizes`  — the size validator (Script.py lines 43–62);
* `concatenate_images` — the compositor (Script.py lines 65–110);
* `output_filename`    — the timestamped output name built in `main`
  (Script.py lines 210–212).

The filesystem, as seen through `PIL.Image.open`, is modelled by a partial
map from paths to images (`none` = the file is unreadable or corrupt, so
`Image.open` raises).  Only an image's pixel size is ever consulted by the
script, so an image is modelled by its size.  Handle hygiene is tracked by an
explicit acquire/release event trace, and the effect of `Image.save` on the
output path is modelled by an environment outcome (success, or a raise that
leaves nothing respectively a partially written file behind).
-/

namespace PyConcat

/-- A file path, as the script handles it (a Python string). -/
abbrev Path := String

/-- A raster image as PIL presents it to this script: the script only ever
reads `img.size = (width, height)`. -/
structure PILImage where
  width : Nat
  height : Nat
  deriving DecidableEq, Repr

/-- The filesystem seen through `PIL.Image.open`: `none` means the path is
unreadable or corrupt, so that `Image.open` raises an exception. -/
abbrev FS := Path → Option PILImage

/-- Image-handle events: `acq p` records that the image at `p` was opened,
`rel p` that the corresponding handle was closed. -/
inductive Ev where
  | acq (p : Path)
  | rel (p : Path)
  deriving DecidableEq, Repr

/-- The paths of the handles acquired in a trace, in order. -/
def acqPaths (t : List Ev) : List Path :=
  t.filterMap fun e => match e with | .acq p => some p | .rel _ => none

/-- The paths of the handles released in a trace, in order. -/
def relPaths (t : List Ev) : List Path :=
  t.filterMap fun e => match e with | .acq _ => none | .rel p => some p

/-- Is the first character list an initial run of the second? -/
def leadsList : List Char → List Char → Bool
  | [], _ => true
  | _ :: _, [] => false
  | a :: as, b :: bs => a = b && leadsList as bs

/-- Does a file name match the glob pattern `segment_*.png` used at
Script.py line 38?  `*` matches any (possibly empty) run of characters, so a
name matches exactly when it starts with `segment_`, ends with `.png`, and is
long enough that the two do not overlap. -/
def segmentPngMatch (name : String) : Bool :=
  leadsList "segment_".data name.data
    && leadsList ".png".data.reverse name.data.reverse
    && decide (12 ≤ name.data.length)

/-- Lexicographic comparison of character lists, exactly as Python compares
strings: the first differing character (by code point) decides, and a proper
prefix comes first. -/
def charListLe : List Char → List Char → Bool
  | [], _ => true
  | _ :: _, [] => false
  | a :: as, b :: bs => if a = b then charListLe as bs else decide (a < b)

/-- The order Python's `sorted` uses on path strings. -/
def pathLe (a b : Path) : Prop := charListLe a.data b.data = true

instance : DecidableRel pathLe := fun a b => instDecidableEqBool (charListLe a.data b.data) true

instance : IsTrans Path pathLe where
  trans a b c hab hbc := by
    unfold pathLe at *
    suffices h : ∀ as bs cs : List Char,
        charListLe as bs = true → charListLe bs cs = true → charListLe as cs = true from
      h _ _ _ hab hbc
    intro as
    induction as with
    | nil => intro bs cs _ _; rfl
    | cons a as ih =>
      intro bs cs h1 h2
      cases bs with
      | nil => simp [charListLe] at h1
      | cons b bs =>
        cases cs with
        | nil => simp [charListLe] at h2
        | cons c cs =>
          simp only [charListLe] at h1 h2 ⊢
          by_cases hab' : a = b
          · subst hab'
            rw [if_pos rfl] at h1
            by_cases hac : a = c
            · subst hac
              rw [if_pos rfl] at h2
              rw [if_pos rfl]
              exact ih bs cs h1 h2
            · rw [if_neg hac] at h2
              rw [if_neg hac]
              exact h2
          · rw [if_neg hab'] at h1
            have hlt1 : a < b := of_decide_eq_true h1
            by_cases hbc' : b = c
            · subst hbc'
              rw [if_neg hab']
              exact decide_eq_true hlt1
            · rw [if_neg hbc'] at h2
              have hlt2 : b < c := of_decide_eq_true h2
              have hlt : a < c := lt_trans hlt1 hlt2
              rw [if_neg (ne_of_lt hlt)]
              exact decide_eq_true hlt

instance : IsTotal Path pathLe where
  total a b := by
    unfold pathLe
    suffices h : ∀ as bs : List Char,
        charListLe as bs = true ∨ charListLe bs as = true from h a.data b.data
    intro as
    induction as with
    | nil => intro bs; left; rfl
    | cons a as ih =>
      intro bs
      cases bs with
      | nil => right; rfl
      | cons b bs =>
        simp only [charListLe]
        by_cases hab : a = b
        · subst hab
          rw [if_pos rfl, if_pos rfl]
          exact ih bs
        · rw [if_neg hab, if_neg fun h => hab h.symm]
          rcases lt_or_gt_of_ne hab with h | h
          · left; exact decide_eq_true h
          · right; exact decide_eq_true h

/-- `find_segment_files` (Script.py lines 36–40): glob `segment_*.png` inside
`folder_path` and return the matches sorted (Python `sorted`, lexicographic on
the full path strings).  `listing` is the directory's file names, in the
arbitrary order the OS reports them. -/
def find_segment_files (folder_path : String) (listing : List String) : List Path :=
  List.insertionSort pathLe
    ((listing.filter segmentPngMatch).map fun name => folder_path ++ "/" ++ name)

/-- Result of `check_image_sizes`.  `ok` and `size` are the returned pair;
`trace` records handle acquire/release events in order; `errorPrinted` records
whether the `except` branch at Script.py lines 60–62 ran (the only place the
validator prints a read-error message). -/
structure CheckResult where
  ok : Bool
  size : Option (Nat × Nat)
  trace : List Ev
  errorPrinted : Bool
  deriving DecidableEq, Repr

/-- The comparison loop of `check_image_sizes` (Script.py lines 54–57): each
iteration opens the next file in a `with` block (so the handle is released on
every exit of the block), compares its size with `base`, and returns
`(False, None)` on the first mismatch.  An unreadable file raises, which the
enclosing `except` turns into `(False, None)` plus a printed message. -/
def checkLoop (fs : FS) (base : Nat × Nat) : List Path → CheckResult
  | [] => ⟨true, some base, [], false⟩
  | p :: rest =>
    match fs p with
    | none => ⟨false, none, [], true⟩
    | some img =>
      if (img.width, img.height) = base then
        let r := checkLoop fs base rest
        ⟨r.ok, r.size, Ev.acq p :: Ev.rel p :: r.trace, r.errorPrinted⟩
      else
        ⟨false, none, [Ev.acq p, Ev.rel p], false⟩

/-- `check_image_sizes` (Script.py lines 43–62): empty input returns
`(False, None)`; otherwise the first file is opened in a `with` block to read
the base size, and every further file is compared against it by `checkLoop`.
Any `Image.open` failure is caught by the `except` at line 60, which prints a
message and returns `(False, None)`. -/
def check_image_sizes (fs : FS) (file_paths : List Path) : CheckResult :=
  match file_paths with
  | [] => ⟨false, none, [], false⟩
  | p0 :: rest =>
    match fs p0 with
    | none => ⟨false, none, [], true⟩
    | some img0 =>
      let r := checkLoop fs (img0.width, img0.height) rest
      ⟨r.ok, r.size, Ev.acq p0 :: Ev.rel p0 :: r.trace, r.errorPrinted⟩

/-- The composed output canvas: its pixel dimensions, and the list of paste
operations `(source path, x offset, y offset)` performed on it, in order. -/
structure Canvas where
  width : Nat
  height : Nat
  pastes : List (Path × Nat × Nat)
  deriving DecidableEq, Repr

/-- Outcome of the external `result_img.save(output_path, 'PNG')` call
(Script.py line 101), which is outside the script's control: it either writes
the file completely, or raises before creating the file, or raises midway and
leaves a truncated file at the path it was given. -/
inductive SaveOutcome where
  | ok
  | failClean
  | failPartway
  deriving DecidableEq, Repr

/-- What exists at the output path after a run: nothing, a truncated file
(the save raised midway), or the fully written canvas. -/
inductive OutFile where
  | absent
  | halfWritten
  | full (c : Canvas)
  deriving DecidableEq, Repr

/-- Result of `concatenate_images`.  `success` is the returned bool; `trace`
records handle events; `canvas` is the `result_img` built at lines 83/93 (if
execution got that far); `outFile` is what the save left at `output_path`;
`savedTo` is the path actually handed to `Image.save`, if the save call was
reached. -/
structure ConcatResult where
  success : Bool
  trace : List Ev
  canvas : Option Canvas
  outFile : OutFile
  savedTo : Option Path
  deriving DecidableEq, Repr

/-- The opening loop of `concatenate_images` (Script.py lines 71–74): open
every file in order, accumulating the handles.  Returns the paths opened
before any failure, and `some` of all `(path, image)` pairs when every open
succeeded (`none` when some `Image.open` raised). -/
def openAll (fs : FS) : List Path → List Path × Option (List (Path × PILImage))
  | [] => ([], some [])
  | p :: rest =>
    match fs p with
    | none => ([], none)
    | some img =>
      match openAll fs rest with
      | (ops, none) => (p :: ops, none)
      | (ops, some l) => (p :: ops, some ((p, img) :: l))

/-- The horizontal paste loop (Script.py lines 85–88): paste each image at
`(x_offset, 0)`, advancing `x_offset` by the first image's width. -/
def hPastes (w : Nat) : List Path → Nat → List (Path × Nat × Nat)
  | [], _ => []
  | p :: rest, x => (p, x, 0) :: hPastes w rest (x + w)

/-- The vertical paste loop (Script.py lines 95–98): paste each image at
`(0, y_offset)`, advancing `y_offset` by the first image's height. -/
def vPastes (h : Nat) : List Path → Nat → List (Path × Nat × Nat)
  | [], _ => []
  | p :: rest, y => (p, 0, y) :: vPastes h rest (y + h)

/-- `concatenate_images` (Script.py lines 65–110): empty input returns
`False`; otherwise all files are opened (without `with`), the canvas size is
computed from the FIRST image's size and the image count, every image is
pasted in order at offsets stepped by that first size, the canvas is saved to
`output_path`, and only then — on the success path — are the handles closed
(lines 104–105).  Any exception is caught at line 108: the function prints a
message and returns `False`, closing nothing. -/
def concatenate_images (fs : FS) (save : SaveOutcome) (file_paths : List Path)
    (direction : String) (output_path : Path) : ConcatResult :=
  match file_paths with
  | [] => ⟨false, [], none, .absent, none⟩
  | _ :: _ =>
    match openAll fs file_paths with
    | (opened, none) => ⟨false, opened.map Ev.acq, none, .absent, none⟩
    | (_, some []) => ⟨false, [], none, .absent, none⟩
    | (_, some (first :: restImgs)) =>
      let imgs := first :: restImgs
      let paths := imgs.map Prod.fst
      let width := first.2.width
      let height := first.2.height
      let canvas : Canvas :=
        if direction = "horizontal" then
          ⟨width * imgs.length, height, hPastes width paths 0⟩
        else
          ⟨width, height * imgs.length, vPastes height paths 0⟩
      match save with
      | .ok =>
        ⟨true, paths.map Ev.acq ++ paths.map Ev.rel, some canvas, .full canvas,
          some output_path⟩
      | .failClean => ⟨false, paths.map Ev.acq, some canvas, .absent, some output_path⟩
      | .failPartway =>
        ⟨false, paths.map Ev.acq, some canvas, .halfWritten, some output_path⟩

/-- The output file name built in `main` (Script.py lines 210–212):
`f"{timestamp}_{random_suffix}.png"`, where `timestamp` is
`now().strftime("%Y%m%d_%H%M%S")` and `random_suffix = random.randint(100, 999)`. -/
def output_filename (timestamp : String) (random_suffix : Nat) : String :=
  timestamp ++ "_" ++ Nat.repr random_suffix ++ ".png"

/-- The decimal rendering of a three-digit number, digit by digit; used to
reason about `Nat.repr` on the suffix range `100..999`. -/
def threeDigitRepr (n : Nat) : String :=
  ⟨[Nat.digitChar (n / 100), Nat.digitChar (n / 10 % 10), Nat.digitChar (n % 10)]⟩

/-- A filesystem with two readable fragments of the common size 2×3. -/
def fsTwoGood : FS := fun p =>
  if p = "a.png" then some ⟨2, 3⟩ else if p = "b.png" then some ⟨2, 3⟩ else none

/-- A filesystem whose second fragment has a different size. -/
def fsMismatch : FS := fun p =>
  if p = "a.png" then some ⟨2, 3⟩ else if p = "b.png" then some ⟨4, 5⟩ else none

/-- A filesystem where `a.png` is 1×1, `b.png` is a 2×2 mismatch, and
`c.png` is unreadable. -/
def fsMismatchThenBad : FS := fun p =>
  if p = "a.png" then some ⟨1, 1⟩ else if p = "b.png" then some ⟨2, 2⟩ else none

/-- A filesystem where `a.png` is readable but `b.png` is unreadable. -/
def fsOneBad : FS := fun p => if p = "a.png" then some ⟨2, 3⟩ else none

/-- A filesystem with two readable fragments of different sizes (2×3 and
10×20), for exercising the compositor on unvalidated input. -/
def fsTwoSizes : FS := fun p =>
  if p = "a.png" then some ⟨2, 3⟩ else if p = "b.png" then some ⟨10, 20⟩ else none

/-- The images of `fsTwoSizes`, as a total map (used to instantiate lemmas
that need a witness image for every path). -/
def gTwoSizes : Path → PILImage := fun p => if p = "a.png" then ⟨2, 3⟩ else ⟨10, 20⟩

/-- A filesystem holding two readable 2×3 fragments inside folder `seg`. -/
def fsSeg : FS := fun p =>
  if p = "seg/segment_01.png" then some ⟨2, 3⟩
  else if p = "seg/segment_02.png" then some ⟨2, 3⟩ else none

/-! ## Trace bookkeeping lemmas -/

theorem acqPaths_nil : acqPaths [] = [] := rfl

theorem relPaths_nil : relPaths [] = [] := rfl

theorem acqPaths_acq_cons (p : Path) (t : List Ev) :
    acqPaths (Ev.acq p :: t) = p :: acqPaths t := rfl

theorem acqPaths_rel_cons (p : Path) (t : List Ev) :
    acqPaths (Ev.rel p :: t) = acqPaths t := rfl

theorem relPaths_acq_cons (p : Path) (t : List Ev) :
    relPaths (Ev.acq p :: t) = relPaths t := rfl

theorem relPaths_rel_cons (p : Path) (t : List Ev) :
    relPaths (Ev.rel p :: t) = p :: relPaths t := rfl

theorem acqPaths_append (s t : List Ev) :
    acqPaths (s ++ t) = acqPaths s ++ acqPaths t :=
  List.filterMap_append s t _

theorem relPaths_append (s t : List Ev) :
    relPaths (s ++ t) = relPaths s ++ relPaths t :=
  List.filterMap_append s t _

theorem acqPaths_map_acq (ps : List Path) : acqPaths (ps.map Ev.acq) = ps := by
  induction ps with
  | nil => rfl
  | cons p ps ih => simpa [acqPaths_acq_cons] using ih

theorem relPaths_map_acq (ps : List Path) : relPaths (ps.map Ev.acq) = [] := by
  induction ps with
  | nil => rfl
  | cons p ps ih => simpa [relPaths_acq_cons] using ih

theorem acqPaths_map_rel (ps : List Path) : acqPaths (ps.map Ev.rel) = [] := by
  induction ps with
  | nil => rfl
  | cons p ps ih => simpa [acqPaths_rel_cons] using ih

theorem relPaths_map_rel (ps : List Path) : relPaths (ps.map Ev.rel) = ps := by
  induction ps with
  | nil => rfl
  | cons p ps ih => simpa [relPaths_rel_cons] using ih

/-! ## Validator lemmas -/

/-- Every iteration of the comparison loop opens its file inside a `with`
block, so the loop releases exactly what it acquires, on every path. -/
theorem checkLoop_balanced (fs : FS) (base : Nat × Nat) (rest : List Path) :
    relPaths (checkLoop fs base rest).trace = acqPaths (checkLoop fs base rest).trace := by
  induction rest with
  | nil => rfl
  | cons p ps ih =>
    show relPaths (checkLoop fs base (p :: ps)).trace
        = acqPaths (checkLoop fs base (p :: ps)).trace
    rw [checkLoop]
    cases fs p with
    | none => rfl
    | some img =>
      by_cases hsz : (img.width, img.height) = base
      · simp only [hsz, if_pos rfl]
        simpa [acqPaths_acq_cons, acqPaths_rel_cons, relPaths_acq_cons, relPaths_rel_cons]
          using ih
      · simp [hsz, relPaths_acq_cons, relPaths_rel_cons, acqPaths_acq_cons, acqPaths_rel_cons,
          relPaths_nil, acqPaths_nil]

/-- If every file of `rest` is readable with size `(w, h)`, the loop succeeds
with that size and prints no read error. -/
theorem checkLoop_all_match (fs : FS) (w h : Nat) (rest : List Path)
    (hall : ∀ p ∈ rest, fs p = some ⟨w, h⟩) :
    (checkLoop fs (w, h) rest).ok = true ∧
      (checkLoop fs (w, h) rest).size = some (w, h) ∧
      (checkLoop fs (w, h) rest).errorPrinted = false := by
  induction rest with
  | nil => exact ⟨rfl, rfl, rfl⟩
  | cons p ps ih =>
    have hp : fs p = some ⟨w, h⟩ := hall p (List.mem_cons_self p ps)
    have ihc := ih fun q hq => hall q (List.mem_cons_of_mem p hq)
    rw [checkLoop, hp]
    simpa using ihc

/-- If every file of `rest` is readable but some file's size differs from
`(w, h)`, the loop fails with no size and prints no read error. -/
theorem checkLoop_mismatch (fs : FS) (w h : Nat) (rest : List Path)
    (hread : ∀ p ∈ rest, ∃ img, fs p = some img)
    (hbad : ∃ q ∈ rest, ∃ img, fs q = some img ∧ (img.width ≠ w ∨ img.height ≠ h)) :
    (checkLoop fs (w, h) rest).ok = false ∧
      (checkLoop fs (w, h) rest).size = none ∧
      (checkLoop fs (w, h) rest).errorPrinted = false := by
  induction rest with
  | nil => simp at hbad
  | cons p ps ih =>
    obtain ⟨imgp, hp⟩ := hread p (List.mem_cons_self p ps)
    rw [checkLoop, hp]
    by_cases hsz : (imgp.width, imgp.height) = (w, h)
    · have hbad' : ∃ q ∈ ps, ∃ img, fs q = some img ∧ (img.width ≠ w ∨ img.height ≠ h) := by
        obtain ⟨q, hq, img, hfq, hne⟩ := hbad
        rcases List.mem_cons.mp hq with rfl | hq'
        · rw [hp] at hfq
          cases hfq
          rw [Prod.mk.injEq] at hsz
          rcases hne with hne | hne
          · exact absurd hsz.1 hne
          · exact absurd hsz.2 hne
        · exact ⟨q, hq', img, hfq, hne⟩
      have ihc := ih (fun q hq => hread q (List.mem_cons_of_mem p hq)) hbad'
      simp only [hsz, if_pos rfl]
      simpa using ihc
    · simp [hsz]

/-- If the files of `pre` all match `(w, h)` and then an unreadable file `q`
is reached, the loop fails via the `except` branch: it prints the read-error
message. -/
theorem checkLoop_readError (fs : FS) (w h : Nat) (pre post : List Path) (q : Path)
    (hpre : ∀ p ∈ pre, fs p = some ⟨w, h⟩) (hq : fs q = none) :
    (checkLoop fs (w, h) (pre ++ q :: post)).ok = false ∧
      (checkLoop fs (w, h) (pre ++ q :: post)).size = none ∧
      (checkLoop fs (w, h) (pre ++ q :: post)).errorPrinted = true := by
  induction pre with
  | nil =>
    rw [List.nil_append, checkLoop, hq]
    exact ⟨rfl, rfl, rfl⟩
  | cons p ps ih =>
    have hp : fs p = some ⟨w, h⟩ := hpre p (List.mem_cons_self p ps)
    have ihc := ih fun r hr => hpre r (List.mem_cons_of_mem p hr)
    rw [List.cons_append, checkLoop, hp]
    simpa using ihc

/-! ## Compositor lemmas -/

/-- When every file is readable, the opening loop opens all of them, in
order. -/
theorem openAll_eq (fs : FS) (g : Path → PILImage) :
    ∀ ps : List Path, (∀ p ∈ ps, fs p = some (g p)) →
      openAll fs ps = (ps, some (ps.map fun p => (p, g p))) := by
  intro ps hall
  induction ps with
  | nil => rfl
  | cons p ps ih =>
    have hp : fs p = some (g p) := hall p (List.mem_cons_self p ps)
    have ihc := ih fun q hq => hall q (List.mem_cons_of_mem p hq)
    rw [openAll, hp, ihc]
    simp

theorem hPastes_length (w : Nat) :
    ∀ (ps : List Path) (x : Nat), (hPastes w ps x).length = ps.length := by
  intro ps
  induction ps with
  | nil => intro x; rfl
  | cons p ps ih => intro x; simp [hPastes, ih]

theorem vPastes_length (h : Nat) :
    ∀ (ps : List Path) (y : Nat), (vPastes h ps y).length = ps.length := by
  intro ps
  induction ps with
  | nil => intro y; rfl
  | cons p ps ih => intro y; simp [vPastes, ih]

/-- The `i`-th horizontal paste places the `i`-th image at `x` plus `i` times
the step width. -/
theorem hPastes_getElem (w : Nat) :
    ∀ (ps : List Path) (x i : Nat) (hi : i < ps.length),
      (hPastes w ps x)[i]? = some ((ps.get ⟨i, hi⟩), x + i * w, 0) := by
  intro ps
  induction ps with
  | nil => intro x i hi; simp at hi
  | cons p ps ih =>
    intro x i hi
    cases i with
    | zero => simp [hPastes]
    | succ j =>
      have hj : j < ps.length := Nat.lt_of_succ_lt_succ hi
      have := ih (x + w) j hj
      simp only [hPastes, List.getElem?_cons_succ, this, List.get_cons_succ]
      congr 2
      ring_nf

/-- The `i`-th vertical paste places the `i`-th image at `y` plus `i` times
the step height. -/
theorem vPastes_getElem (h : Nat) :
    ∀ (ps : List Path) (y i : Nat) (hi : i < ps.length),
      (vPastes h ps y)[i]? = some ((ps.get ⟨i, hi⟩), 0, y + i * h) := by
  intro ps
  induction ps with
  | nil => intro y i hi; simp at hi
  | cons p ps ih =>
    intro y i hi
    cases i with
    | zero => simp [vPastes]
    | succ j =>
      have hj : j < ps.length := Nat.lt_of_succ_lt_succ hi
      have := ih (y + h) j hj
      simp only [vPastes, List.getElem?_cons_succ, this, List.get_cons_succ]
      congr 2
      ring_nf

/-- Full behaviour of `concatenate_images` on a non-empty list of readable
files: the canvas is computed from the FIRST image's size, every file is
pasted in input order, and the save outcome decides the returned flag, the
released handles, and what is left at the output path. -/
theorem concatenate_images_eq (fs : FS) (g : Path → PILImage) (save : SaveOutcome)
    (p0 : Path) (rest : List Path) (direction : String) (out : Path)
    (hall : ∀ p ∈ p0 :: rest, fs p = some (g p)) :
    concatenate_images fs save (p0 :: rest) direction out =
      (let w := (g p0).width
      let h := (g p0).height
      let canvas : Canvas :=
        if direction = "horizontal" then
          ⟨w * (p0 :: rest).length, h, hPastes w (p0 :: rest) 0⟩
        else
          ⟨w, h * (p0 :: rest).length, vPastes h (p0 :: rest) 0⟩
      match save with
      | .ok =>
        ⟨true, (p0 :: rest).map Ev.acq ++ (p0 :: rest).map Ev.rel, some canvas,
          .full canvas, some out⟩
      | .failClean =>
        ⟨false, (p0 :: rest).map Ev.acq, some canvas, .absent, some out⟩
      | .failPartway =>
        ⟨false, (p0 :: rest).map Ev.acq, some canvas, .halfWritten, some out⟩) := by
  have ho := openAll_eq fs g (p0 :: rest) hall
  rw [concatenate_images, ho]
  have hfst : (Prod.fst ∘ fun p : Path => ((p, g p) : Path × PILImage)) = id :=
    funext fun _ => rfl
  have hacq : (Ev.acq ∘ Prod.fst ∘ fun p : Path => ((p, g p) : Path × PILImage)) = Ev.acq :=
    funext fun _ => rfl
  have hrel : (Ev.rel ∘ Prod.fst ∘ fun p : Path => ((p, g p) : Path × PILImage)) = Ev.rel :=
    funext fun _ => rfl
  cases save <;> simp [hfst, hacq, hrel]

/-! ## Output-filename lemmas (Script.py lines 210–213)

`random.randint(100, 999)` draws an integer in `[100, 999]` (both ends
included), so the suffix rendered into the file name is exactly the decimal
form of such a number. -/

set_option maxRecDepth 4000 in
/-- On the suffix range `100..999`, `Nat.repr` is the three-digit decimal
rendering. -/
theorem repr_eq_threeDigitRepr :
    ∀ n : Nat, n < 1000 → 100 ≤ n → Nat.repr n = threeDigitRepr n := by decide

/-- `Nat.digitChar` is injective on single digits. -/
theorem digitChar_inj :
    ∀ a : Nat, a < 10 → ∀ b : Nat, b < 10 → Nat.digitChar a = Nat.digitChar b → a = b := by
  decide

/-- The three-digit rendering is injective on `100..999`. -/
theorem threeDigitRepr_inj (a b : Nat) (ha1 : 100 ≤ a) (ha2 : a ≤ 999)
    (hb1 : 100 ≤ b) (hb2 : b ≤ 999) (h : threeDigitRepr a = threeDigitRepr b) : a = b := by
  have hd := congrArg String.data h
  simp only [threeDigitRepr, List.cons.injEq, and_true] at hd
  obtain ⟨e1, e2, e3⟩ := hd
  have d1 : a / 100 = b / 100 :=
    digitChar_inj _ (by omega) _ (by omega) e1
  have d2 : a / 10 % 10 = b / 10 % 10 :=
    digitChar_inj _ (Nat.mod_lt _ (by omega)) _ (Nat.mod_lt _ (by omega)) e2
  have d3 : a % 10 = b % 10 :=
    digitChar_inj _ (Nat.mod_lt _ (by omega)) _ (Nat.mod_lt _ (by omega)) e3
  omega

/-- `Nat.repr` is injective on the suffix range `100..999`. -/
theorem repr_inj_on_suffix (a b : Nat) (ha1 : 100 ≤ a) (ha2 : a ≤ 999)
    (hb1 : 100 ≤ b) (hb2 : b ≤ 999) (h : Nat.repr a = Nat.repr b) : a = b := by
  rw [repr_eq_threeDigitRepr a (by omega) ha1, repr_eq_threeDigitRepr b (by omega) hb1] at h
  exact threeDigitRepr_inj a b ha1 ha2 hb1 hb2 h

/-! ## Claim theorems -/

/-- C1: for every non-empty list of fragment file paths in which every
fragment has the same pixel size `(w, h)`, the validator `check_image_sizes`
returns success together with that common size `(w, h)`. -/
theorem validator_accepts_uniform_fragments (fs : FS) (paths : List Path) (w h : Nat)
    (hne : paths ≠ []) (hall : ∀ p ∈ paths, fs p = some ⟨w, h⟩) :
    (check_image_sizes fs paths).ok = true ∧
      (check_image_sizes fs paths).size = some (w, h) := by
  cases paths with
  | nil => exact absurd rfl hne
  | cons p0 rest =>
    have h0 : fs p0 = some ⟨w, h⟩ := hall p0 (List.mem_cons_self p0 rest)
    have hl := checkLoop_all_match fs w h rest fun q hq => hall q (List.mem_cons_of_mem p0 hq)
    rw [check_image_sizes, h0]
    exact ⟨hl.1, hl.2.1⟩

/-- C1 witness: two readable 2×3 fragments are accepted with size `(2, 3)`. -/
theorem validator_accepts_uniform_fragments_witness :
    (check_image_sizes fsTwoGood ["a.png", "b.png"]).ok = true ∧
      (check_image_sizes fsTwoGood ["a.png", "b.png"]).size = some (2, 3) :=
  validator_accepts_uniform_fragments fsTwoGood ["a.png", "b.png"] 2 3
    (by decide) (by decide)

/-- C2: for every list of readable fragments whose first fragment has size
`(w, h)` and which contains a fragment of a different size, the validator
returns the size-mismatch failure `(False, None)` — and prints no read-error
message, which is what distinguishes `SizeMismatch` from `ImageReadError`. -/
theorem validator_rejects_size_mismatch (fs : FS) (p0 : Path) (rest : List Path) (w h : Nat)
    (h0 : fs p0 = some ⟨w, h⟩)
    (hread : ∀ p ∈ rest, ∃ img, fs p = some img)
    (hbad : ∃ q ∈ rest, ∃ img, fs q = some img ∧ (img.width ≠ w ∨ img.height ≠ h)) :
    (check_image_sizes fs (p0 :: rest)).ok = false ∧
      (check_image_sizes fs (p0 :: rest)).size = none ∧
      (check_image_sizes fs (p0 :: rest)).errorPrinted = false := by
  have hl := checkLoop_mismatch fs w h rest hread hbad
  rw [check_image_sizes, h0]
  exact ⟨hl.1, hl.2.1, hl.2.2⟩

/-- C2 witness: a 2×3 fragment followed by a 4×5 fragment is rejected. -/
theorem validator_rejects_size_mismatch_witness :
    (check_image_sizes fsMismatch ["a.png", "b.png"]).ok = false ∧
      (check_image_sizes fsMismatch ["a.png", "b.png"]).size = none ∧
      (check_image_sizes fsMismatch ["a.png", "b.png"]).errorPrinted = false :=
  validator_rejects_size_mismatch fsMismatch "a.png" ["b.png"] 2 3
    (by decide)
    (by
      intro p hp
      rw [List.mem_singleton] at hp
      subst hp
      exact ⟨⟨4, 5⟩, by decide⟩)
    ⟨"b.png", by decide, ⟨4, 5⟩, by decide, Or.inl (by decide)⟩

/-- C6 counterexample: the claim says EVERY list containing an unreadable
file surfaces `ImageReadError`; but when a size mismatch occurs before the
unreadable file is reached, the loop returns the mismatch result first and no
read-error message is printed (`errorPrinted = false`), so the failure is
reported as a size mismatch, not as a read error. -/
theorem read_error_masked_by_mismatch :
    fsMismatchThenBad "c.png" = none ∧
      (check_image_sizes fsMismatchThenBad ["a.png", "b.png", "c.png"]).ok = false ∧
      (check_image_sizes fsMismatchThenBad ["a.png", "b.png", "c.png"]).errorPrinted = false := by
  decide

/-- C6 (amended): the validator never crashes (it is a total function into
`CheckResult`), and whenever the scan actually reaches an unreadable file —
i.e. every fragment before it matches the first fragment's size — it fails
via the `except` branch, printing the read-error message
(`errorPrinted = true`), which distinguishes this failure from a size
mismatch (which leaves `errorPrinted = false`). -/
theorem validator_read_error_when_reached (fs : FS) (p0 q : Path) (pre post : List Path)
    (w h : Nat) (h0 : fs p0 = some ⟨w, h⟩)
    (hpre : ∀ p ∈ pre, fs p = some ⟨w, h⟩) (hq : fs q = none) :
    (check_image_sizes fs (p0 :: (pre ++ q :: post))).ok = false ∧
      (check_image_sizes fs (p0 :: (pre ++ q :: post))).size = none ∧
      (check_image_sizes fs (p0 :: (pre ++ q :: post))).errorPrinted = true := by
  have hl := checkLoop_readError fs w h pre post q hpre hq
  rw [check_image_sizes, h0]
  exact ⟨hl.1, hl.2.1, hl.2.2⟩

/-- C6 witness: a readable 2×3 fragment followed by an unreadable file
produces the read-error failure. -/
theorem validator_read_error_when_reached_witness :
    (check_image_sizes fsOneBad ["a.png", "b.png"]).ok = false ∧
      (check_image_sizes fsOneBad ["a.png", "b.png"]).size = none ∧
      (check_image_sizes fsOneBad ["a.png", "b.png"]).errorPrinted = true :=
  validator_read_error_when_reached fsOneBad "a.png" "b.png" [] [] 2 3
    (by decide) (by decide) (by decide)

/-- C9: on an empty list, `check_image_sizes` returns `(False, None)` (lines
45–46) and `concatenate_images` returns `False` (lines 67–68) without
touching the filesystem, opening anything, or creating any output; both are
total functions, so no exception escapes. -/
theorem empty_input_fails_gracefully :
    (∀ fs, check_image_sizes fs [] = ⟨false, none, [], false⟩) ∧
      (∀ (fs : FS) (save : SaveOutcome) (dir out : String),
        concatenate_images fs save [] dir out = ⟨false, [], none, OutFile.absent, none⟩) :=
  ⟨fun _ => rfl, fun _ _ _ _ => rfl⟩

/-- C3: for every validated list of `n` fragments each of size `(w, h)`,
horizontal composition produces an output image of size `(n·w, h)` and
vertical composition produces an output image of size `(w, n·h)`. -/
theorem compositor_output_dimensions (fs : FS) (paths : List Path) (w h : Nat) (out : Path)
    (hne : paths ≠ []) (hall : ∀ p ∈ paths, fs p = some ⟨w, h⟩) :
    (∃ c, (concatenate_images fs .ok paths "horizontal" out).outFile = OutFile.full c ∧
        c.width = paths.length * w ∧ c.height = h) ∧
    (∃ c, (concatenate_images fs .ok paths "vertical" out).outFile = OutFile.full c ∧
        c.width = w ∧ c.height = paths.length * h) := by
  cases paths with
  | nil => exact absurd rfl hne
  | cons p0 rest =>
    have hall' : ∀ p ∈ p0 :: rest, fs p = some ((fun _ => (⟨w, h⟩ : PILImage)) p) := hall
    rw [concatenate_images_eq fs (fun _ => ⟨w, h⟩) .ok p0 rest "horizontal" out hall']
    rw [concatenate_images_eq fs (fun _ => ⟨w, h⟩) .ok p0 rest "vertical" out hall']
    constructor
    · refine ⟨⟨w * (p0 :: rest).length, h, hPastes w (p0 :: rest) 0⟩, ?_, ?_, rfl⟩
      · simp
      · simp [Nat.mul_comm]
    · refine ⟨⟨w, h * (p0 :: rest).length, vPastes h (p0 :: rest) 0⟩, ?_, rfl, ?_⟩
      · simp
      · simp [Nat.mul_comm]

/-- C3 witness: two 2×3 fragments compose to 4×3 horizontally and to 2×6
vertically. -/
theorem compositor_output_dimensions_witness :
    (∃ c, (concatenate_images fsTwoGood .ok ["a.png", "b.png"] "horizontal" "out.png").outFile
          = OutFile.full c ∧ c.width = 2 * 2 ∧ c.height = 3) ∧
    (∃ c, (concatenate_images fsTwoGood .ok ["a.png", "b.png"] "vertical" "out.png").outFile
          = OutFile.full c ∧ c.width = 2 ∧ c.height = 2 * 3) :=
  compositor_output_dimensions fsTwoGood ["a.png", "b.png"] 2 3 "out.png"
    (by decide) (by decide)

/-- C4: for a validated fragment list produced by `find_segment_files`, the
list is in sorted (lexicographic) order, and the compositor pastes fragment
`i` at offset `(i·w, 0)` horizontally and `(0, i·h)` vertically, so the
output order equals the sorted input order. -/
theorem compositor_order_and_offsets (fs : FS) (folder : String) (listing : List String)
    (w h : Nat) (out : Path)
    (hne : find_segment_files folder listing ≠ [])
    (hall : ∀ p ∈ find_segment_files folder listing, fs p = some ⟨w, h⟩) :
    List.Sorted pathLe (find_segment_files folder listing) ∧
    (∃ c, (concatenate_images fs .ok (find_segment_files folder listing) "horizontal" out).canvas
        = some c ∧
      ∀ (i : Nat) (hi : i < (find_segment_files folder listing).length),
        c.pastes[i]? = some ((find_segment_files folder listing).get ⟨i, hi⟩, i * w, 0)) ∧
    (∃ c, (concatenate_images fs .ok (find_segment_files folder listing) "vertical" out).canvas
        = some c ∧
      ∀ (i : Nat) (hi : i < (find_segment_files folder listing).length),
        c.pastes[i]? = some ((find_segment_files folder listing).get ⟨i, hi⟩, 0, i * h)) := by
  refine ⟨List.sorted_insertionSort pathLe _, ?_, ?_⟩
  · rcases hps : find_segment_files folder listing with _ | ⟨p0, rest⟩
    · exact absurd hps hne
    · rw [hps] at hall
      have hall' : ∀ p ∈ p0 :: rest, fs p = some ((fun _ => (⟨w, h⟩ : PILImage)) p) := hall
      rw [concatenate_images_eq fs (fun _ => ⟨w, h⟩) .ok p0 rest "horizontal" out hall']
      refine ⟨⟨w * (p0 :: rest).length, h, hPastes w (p0 :: rest) 0⟩, by simp, ?_⟩
      intro i hi
      have := hPastes_getElem w (p0 :: rest) 0 i hi
      simpa using this
  · rcases hps : find_segment_files folder listing with _ | ⟨p0, rest⟩
    · exact absurd hps hne
    · rw [hps] at hall
      have hall' : ∀ p ∈ p0 :: rest, fs p = some ((fun _ => (⟨w, h⟩ : PILImage)) p) := hall
      rw [concatenate_images_eq fs (fun _ => ⟨w, h⟩) .ok p0 rest "vertical" out hall']
      refine ⟨⟨w, h * (p0 :: rest).length, vPastes h (p0 :: rest) 0⟩, by simp, ?_⟩
      intro i hi
      have := vPastes_getElem h (p0 :: rest) 0 i hi
      simpa using this

/-- C4 witness: a folder listing discovered out of order is sorted, and both
compositions paste the two fragments in that order at stepped offsets. -/
theorem compositor_order_and_offsets_witness :
    List.Sorted pathLe (find_segment_files "seg" ["segment_02.png", "segment_01.png"]) ∧
    (∃ c, (concatenate_images fsSeg .ok
          (find_segment_files "seg" ["segment_02.png", "segment_01.png"])
          "horizontal" "out.png").canvas = some c ∧
      ∀ (i : Nat)
        (hi : i < (find_segment_files "seg" ["segment_02.png", "segment_01.png"]).length),
        c.pastes[i]? = some
          ((find_segment_files "seg" ["segment_02.png", "segment_01.png"]).get ⟨i, hi⟩,
            i * 2, 0)) ∧
    (∃ c, (concatenate_images fsSeg .ok
          (find_segment_files "seg" ["segment_02.png", "segment_01.png"])
          "vertical" "out.png").canvas = some c ∧
      ∀ (i : Nat)
        (hi : i < (find_segment_files "seg" ["segment_02.png", "segment_01.png"]).length),
        c.pastes[i]? = some
          ((find_segment_files "seg" ["segment_02.png", "segment_01.png"]).get ⟨i, hi⟩,
            0, i * 3)) :=
  compositor_order_and_offsets fsSeg "seg" ["segment_02.png", "segment_01.png"] 2 3
    "out.png" (by decide) (by decide)

/-- C10: the compositor derives the canvas size and all paste offsets solely
from the FIRST image's dimensions: for any readable input list (validated or
not), the horizontal canvas is `(w·n, h)` with fragment `i` pasted at
`(i·w, 0)`, and the vertical canvas is `(w, h·n)` with fragment `i` pasted at
`(0, i·h)`, where `(w, h)` is the first image's size — regardless of the
sizes of the other fragments. -/
theorem canvas_from_first_image_only (fs : FS) (g : Path → PILImage) (p0 : Path)
    (rest : List Path) (save : SaveOutcome) (out : Path)
    (hall : ∀ p ∈ p0 :: rest, fs p = some (g p)) :
    ((concatenate_images fs save (p0 :: rest) "horizontal" out).canvas =
        some ⟨(g p0).width * (p0 :: rest).length, (g p0).height,
          hPastes (g p0).width (p0 :: rest) 0⟩) ∧
    ((concatenate_images fs save (p0 :: rest) "vertical" out).canvas =
        some ⟨(g p0).width, (g p0).height * (p0 :: rest).length,
          vPastes (g p0).height (p0 :: rest) 0⟩) ∧
    (∀ (i : Nat) (hi : i < (p0 :: rest).length),
        (hPastes (g p0).width (p0 :: rest) 0)[i]? =
          some ((p0 :: rest).get ⟨i, hi⟩, i * (g p0).width, 0)) ∧
    (∀ (i : Nat) (hi : i < (p0 :: rest).length),
        (vPastes (g p0).height (p0 :: rest) 0)[i]? =
          some ((p0 :: rest).get ⟨i, hi⟩, 0, i * (g p0).height)) := by
  rw [concatenate_images_eq fs g save p0 rest "horizontal" out hall]
  rw [concatenate_images_eq fs g save p0 rest "vertical" out hall]
  refine ⟨?_, ?_, ?_, ?_⟩
  · cases save <;> simp
  · cases save <;> simp
  · intro i hi
    simpa using hPastes_getElem (g p0).width (p0 :: rest) 0 i hi
  · intro i hi
    simpa using vPastes_getElem (g p0).height (p0 :: rest) 0 i hi

/-- C10 witness: with a first image of size 2×3 and a second of size 10×20
(unvalidated input), the horizontal canvas is still 4×3 and the second
fragment is still pasted at `(2, 0)`. -/
theorem canvas_from_first_image_only_witness :
    (concatenate_images fsTwoSizes .ok ["a.png", "b.png"] "horizontal" "o").canvas =
      some ⟨2 * 2, 3, [("a.png", 0, 0), ("b.png", 2, 0)]⟩ :=
  (canvas_from_first_image_only fsTwoSizes gTwoSizes "a.png" ["b.png"] .ok "o"
    (by decide)).1

/-- C5 counterexample: output filenames are NOT guaranteed distinct within
the same second.  `random.randint(100, 999)` can return the same value in two
runs (every value in `100..999` is a possible draw), and equal draws give
byte-identical filenames, so the claimed distinctness fails — here at the
draw `100` for both runs. -/
theorem output_filename_collision :
    ¬ (∀ s1 s2 : Nat, 100 ≤ s1 → s1 ≤ 999 → 100 ≤ s2 → s2 ≤ 999 →
        output_filename "20260101_120000" s1 ≠ output_filename "20260101_120000" s2) :=
  fun hclaim => hclaim 100 100 (by decide) (by decide) (by decide) (by decide) rfl

/-- C5 (amended): two runs in the same second produce distinct output
filenames exactly when their random suffixes differ; a repeated draw (which
`random.randint(100, 999)` permits) yields the same path, and the second save
overwrites the first.  Distinctness is therefore likely but not guaranteed. -/
theorem output_filename_distinct_iff (t : String) (s1 s2 : Nat)
    (h1 : 100 ≤ s1) (h2 : s1 ≤ 999) (h3 : 100 ≤ s2) (h4 : s2 ≤ 999) :
    output_filename t s1 = output_filename t s2 ↔ s1 = s2 := by
  constructor
  · intro h
    have hd := congrArg String.data h
    simp only [output_filename, String.data_append] at hd
    have h5 := List.append_cancel_right hd
    have h6 := List.append_cancel_left h5
    have h7 : Nat.repr s1 = Nat.repr s2 := String.ext h6
    exact repr_inj_on_suffix s1 s2 h1 h2 h3 h4 h7
  · intro h
    rw [h]

/-- C5 witness: distinct suffix draws 123 and 456 give distinct filenames. -/
theorem output_filename_distinct_iff_witness :
    output_filename "20260101_120000" 123 = output_filename "20260101_120000" 456 ↔
      123 = 456 :=
  output_filename_distinct_iff "20260101_120000" 123 456
    (by decide) (by decide) (by decide) (by decide)

/-- C7 counterexample: on an error path of the compositor an opened handle is
NOT released.  Here the single fragment is opened, the save raises, and the
`except` branch returns `False` without closing anything: the trace acquired
`a.png` but released nothing. -/
theorem compositor_leaks_handles_on_error :
    (concatenate_images fsOneBad .failClean ["a.png"] "horizontal" "out.png").success
        = false ∧
      acqPaths (concatenate_images fsOneBad .failClean ["a.png"] "horizontal"
          "out.png").trace = ["a.png"] ∧
      relPaths (concatenate_images fsOneBad .failClean ["a.png"] "horizontal"
          "out.png").trace = [] := by
  decide

/-- C7 (amended): the validator releases every handle it opens on every path
(each open happens in a `with` block); the compositor releases every handle
it opens on the success path only — the close loop at lines 104–105 runs
after the save, so its error paths release nothing. -/
theorem handles_released :
    (∀ (fs : FS) (paths : List Path),
      relPaths (check_image_sizes fs paths).trace
        = acqPaths (check_image_sizes fs paths).trace) ∧
    (∀ (fs : FS) (save : SaveOutcome) (paths : List Path) (dir out : String),
      (concatenate_images fs save paths dir out).success = true →
        relPaths (concatenate_images fs save paths dir out).trace
          = acqPaths (concatenate_images fs save paths dir out).trace) := by
  constructor
  · intro fs paths
    cases paths with
    | nil => rfl
    | cons p0 rest =>
      rw [check_image_sizes]
      cases fs p0 with
      | none => rfl
      | some img0 =>
        show relPaths (Ev.acq p0 :: Ev.rel p0 :: _) = acqPaths (Ev.acq p0 :: Ev.rel p0 :: _)
        rw [relPaths_acq_cons, relPaths_rel_cons, acqPaths_acq_cons, acqPaths_rel_cons]
        exact congrArg (p0 :: ·) (checkLoop_balanced fs (img0.width, img0.height) rest)
  · intro fs save paths dir out hsucc
    cases paths with
    | nil => simp [concatenate_images] at hsucc
    | cons p0 rest =>
      rcases ho : openAll fs (p0 :: rest) with ⟨opened, oimgs⟩
      rw [concatenate_images, ho] at hsucc ⊢
      cases oimgs with
      | none => simp at hsucc
      | some l =>
        cases l with
        | nil => simp at hsucc
        | cons first restImgs =>
          cases save with
          | ok =>
            rw [relPaths_append, acqPaths_append, relPaths_map_acq, relPaths_map_rel,
              acqPaths_map_acq, acqPaths_map_rel]
            simp
          | failClean => simp at hsucc
          | failPartway => simp at hsucc

/-- C7 witness: a successful run of the compositor releases exactly the
handles it acquired. -/
theorem handles_released_witness :
    (concatenate_images fsTwoGood .ok ["a.png", "b.png"] "horizontal" "out.png").success
        = true ∧
      relPaths (concatenate_images fsTwoGood .ok ["a.png", "b.png"] "horizontal"
          "out.png").trace
        = acqPaths (concatenate_images fsTwoGood .ok ["a.png", "b.png"] "horizontal"
          "out.png").trace :=
  ⟨by decide,
    handles_released.2 fsTwoGood .ok ["a.png", "b.png"] "horizontal" "out.png" (by decide)⟩

/-- C8 counterexample: the claim says a failing save leaves no
partially-composed file at the final output path; but `concatenate_images`
hands the FINAL output path directly to `Image.save` (line 101, no temporary
location), so a save that raises midway leaves a truncated file there while
the function returns `False`. -/
theorem save_failure_leaves_truncated_file :
    (concatenate_images fsOneBad .failPartway ["a.png"] "horizontal" "out.png").success
        = false ∧
      (concatenate_images fsOneBad .failPartway ["a.png"] "horizontal" "out.png").outFile
        = OutFile.halfWritten ∧
      (concatenate_images fsOneBad .failPartway ["a.png"] "horizontal" "out.png").savedTo
        = some "out.png" := by
  decide

/-- C8 (amended): any failure before the save call (empty input or an
unreadable fragment) leaves nothing at the output path; the full output file
exists exactly when the function returns success; but every write the
function performs goes directly to the final output path (never a temporary
location), so the no-partial-file guarantee does not extend to a failure
inside the save itself. -/
theorem output_materialized_only_by_save (fs : FS) (save : SaveOutcome)
    (paths : List Path) (dir out : String) :
    ((concatenate_images fs save paths dir out).savedTo = none →
      (concatenate_images fs save paths dir out).outFile = OutFile.absent) ∧
    ((concatenate_images fs save paths dir out).success = true ↔
      ∃ c, (concatenate_images fs save paths dir out).outFile = OutFile.full c) ∧
    (∀ p, (concatenate_images fs save paths dir out).savedTo = some p → p = out) := by
  cases paths with
  | nil => refine ⟨fun _ => rfl, ?_, ?_⟩ <;> simp [concatenate_images]
  | cons p0 rest =>
    rcases ho : openAll fs (p0 :: rest) with ⟨opened, oimgs⟩
    rw [concatenate_images, ho]
    cases oimgs with
    | none => refine ⟨fun _ => rfl, ?_, ?_⟩ <;> simp
    | some l =>
      cases l with
      | nil => refine ⟨fun _ => rfl, ?_, ?_⟩ <;> simp
      | cons first restImgs =>
        cases save with
        | ok => refine ⟨?_, ?_, ?_⟩ <;> simp
        | failClean => refine ⟨?_, ?_, ?_⟩ <;> simp
        | failPartway => refine ⟨?_, ?_, ?_⟩ <;> simp

/-- C8 witness: a run that fails before reaching the save (its second
fragment is unreadable) leaves nothing at the output path. -/
theorem output_materialized_only_by_save_witness :
    (concatenate_images fsOneBad .ok ["a.png", "b.png"] "horizontal" "out.png").outFile
      = OutFile.absent :=
  (output_materialized_only_by_save fsOneBad .ok ["a.png", "b.png"] "horizontal"
    "out.png").1 (by decide)

end PyConcat
